import Mathlib

/-!
Verification of the subscription-aggregation worker (`functions/[[path]].js`).

The development shallowly embeds the worker's pure core:
* the WHATWG "forgiving base64" primitives `atob` / `btoa` that the
  Cloudflare runtime provides (`atobOpt` / `btoaOpt`),
* the source fetcher `fetchSubscriptionNodes` (network I/O replaced by an
  explicit oracle mapping URLs to results),
* the aggregator `handleSubscription` (KV store replaced by an explicit map
  from group ids to stored group records),
* the config importer `parseXrayConfig` (JSON parsing replaced by a
  structured value; `JSON.parse` failure is the `none` input),
* the admin `getConfig` handler (the stored `CONFIG` JSON object modelled
  as an association list so that `delete config.password` is observable).

JavaScript strings are modelled as Lean `String`; machine-level behaviour
(`atob`ʼs byte output) is modelled by code points below 256.
-/

namespace CFSub

/-! ## WHATWG forgiving base64 (`atob` / `btoa`)

`atob`/`btoa` in the Workers runtime implement the WHATWG Infra
"forgiving-base64" algorithms: `atob` first removes ASCII whitespace
(TAB, LF, FF, CR, SPACE), then strips up to two trailing `=` when the
length is a multiple of four, fails when the remaining length is ≡ 1
(mod 4) or any character is outside the alphabet, and otherwise decodes,
discarding leftover bits.  `btoa` fails when any code point exceeds 255. -/

/-- Value of a base64 alphabet character, `none` for anything else. -/
def charToSix (c : Char) : Option Nat :=
  let n := c.toNat
  if 65 ≤ n ∧ n ≤ 90 then some (n - 65)
  else if 97 ≤ n ∧ n ≤ 122 then some (n - 97 + 26)
  else if 48 ≤ n ∧ n ≤ 57 then some (n - 48 + 52)
  else if n = 43 then some 62
  else if n = 47 then some 63
  else none

/-- Base64 alphabet character for a six-bit value. -/
def sixToChar (n : Nat) : Char :=
  if n < 26 then Char.ofNat (65 + n)
  else if n < 52 then Char.ofNat (97 + (n - 26))
  else if n < 62 then Char.ofNat (48 + (n - 52))
  else if n = 62 then '+'
  else '/'

/-- Standard base64 encoding of a byte sequence, with `=` padding. -/
def b64EncodeBytes : List Nat → List Char
  | [] => []
  | [a] => [sixToChar (a / 4), sixToChar (a % 4 * 16), '=', '=']
  | [a, b] => [sixToChar (a / 4), sixToChar (a % 4 * 16 + b / 16),
               sixToChar (b % 16 * 4), '=']
  | a :: b :: c :: rest =>
      sixToChar (a / 4) :: sixToChar (a % 4 * 16 + b / 16) ::
      sixToChar (b % 16 * 4 + c / 64) :: sixToChar (c % 64) ::
      b64EncodeBytes rest

/-- Bytes encoded by a sequence of six-bit values; leftover bits are
discarded, as forgiving-base64 prescribes. -/
def b64DecodeSixes : List Nat → List Nat
  | [] => []
  | [_] => []
  | [x, y] => [x * 4 + y / 16]
  | [x, y, z] => [x * 4 + y / 16, y % 16 * 16 + z / 4]
  | x :: y :: z :: w :: rest =>
      (x * 4 + y / 16) :: (y % 16 * 16 + z / 4) :: (z % 4 * 64 + w) ::
      b64DecodeSixes rest

/-- ASCII whitespace removed by forgiving-base64 decode. -/
def isB64Ws (c : Char) : Bool :=
  c.toNat = 9 ∨ c.toNat = 10 ∨ c.toNat = 12 ∨ c.toNat = 13 ∨ c.toNat = 32

/-- Strip up to two trailing `=` characters. -/
def stripPad (cs : List Char) : List Char :=
  match cs.reverse with
  | e1 :: e2 :: rest =>
      if e1 = '=' then
        (if e2 = '=' then rest.reverse else (e2 :: rest).reverse)
      else cs
  | [e1] => if e1 = '=' then [] else cs
  | [] => cs

/-- Map the alphabet values of a character list, failing on any
non-alphabet character (a transparent `mapM` into `Option`). -/
def traverseSix : List Char → Option (List Nat)
  | [] => some []
  | c :: cs =>
    match charToSix c, traverseSix cs with
    | some v, some vs => some (v :: vs)
    | _, _ => none

/-- Forgiving-base64 decode of a whitespace-free character list. -/
def b64DecodeChars (cs : List Char) : Option (List Nat) :=
  let cs2 := if cs.length % 4 = 0 then stripPad cs else cs
  if cs2.length % 4 = 1 then none
  else
    match traverseSix cs2 with
    | none => none
    | some sixes => some (b64DecodeSixes sixes)

/-- Model of `atob`: forgiving-base64 decode; decoded bytes become code points. -/
def atobOpt (s : String) : Option String :=
  match b64DecodeChars (s.data.filter (fun c => !(isB64Ws c))) with
  | none => none
  | some bytes => some (String.mk (bytes.map Char.ofNat))

/-- Model of `btoa`: base64 encode; fails when a code point exceeds 255. -/
def btoaOpt (s : String) : Option String :=
  if s.data.all (fun c => c.toNat < 256) then
    some (String.mk (b64EncodeBytes (s.data.map Char.toNat)))
  else none

/-! ### Base64 round trip: `atob` inverts `btoa` -/

/-- Recursion principle following the three-byte chunking of base64. -/
def chunkRec {P : List Nat → Prop} (h0 : P []) (h1 : ∀ a, P [a])
    (h2 : ∀ a b, P [a, b])
    (h3 : ∀ a b c rest, P rest → P (a :: b :: c :: rest)) :
    ∀ bs : List Nat, P bs
  | [] => h0
  | [a] => h1 a
  | [a, b] => h2 a b
  | a :: b :: c :: rest => h3 a b c rest (chunkRec h0 h1 h2 h3 rest)

/-- The unpadded six-bit value sequence of an encoded byte list. -/
def encSixes : List Nat → List Nat
  | [] => []
  | [a] => [a / 4, a % 4 * 16]
  | [a, b] => [a / 4, a % 4 * 16 + b / 16, b % 16 * 4]
  | a :: b :: c :: rest =>
      a / 4 :: (a % 4 * 16 + b / 16) :: (b % 16 * 4 + c / 64) :: c % 64 ::
      encSixes rest

theorem charToSix_sixToChar : ∀ n, n < 64 → charToSix (sixToChar n) = some n := by
  decide

theorem sixToChar_not_ws : ∀ n, n < 64 → isB64Ws (sixToChar n) = false := by
  decide

theorem sixToChar_ne_eq : ∀ n, n < 64 → sixToChar n ≠ '=' := by
  decide

theorem b64EncodeBytes_length_mod4 (bs : List Nat) :
    (b64EncodeBytes bs).length % 4 = 0 := by
  induction bs using chunkRec with
  | h0 => rfl
  | h1 a => simp [b64EncodeBytes]
  | h2 a b => simp [b64EncodeBytes]
  | h3 a b c rest ih =>
      simp only [b64EncodeBytes, List.length_cons]
      omega

theorem b64EncodeBytes_length_ge (x : Nat) (xs : List Nat) :
    4 ≤ (b64EncodeBytes (x :: xs)).length := by
  match xs with
  | [] => simp [b64EncodeBytes]
  | [b] => simp [b64EncodeBytes]
  | b :: c :: rest =>
      simp only [b64EncodeBytes, List.length_cons]
      omega

theorem stripPad_append (xs ys : List Char) (h : 2 ≤ ys.length) :
    stripPad (xs ++ ys) = xs ++ stripPad ys := by
  obtain ⟨a, b, t, hrev⟩ : ∃ a b t, ys.reverse = a :: b :: t := by
    match hy : ys.reverse with
    | [] => simp [List.reverse_eq_nil_iff] at hy; simp [hy] at h
    | [a] =>
        have : ys.length = 1 := by
          have := congrArg List.length hy; simpa using this
        omega
    | a :: b :: t => exact ⟨a, b, t, rfl⟩
  have hys : ys = (a :: b :: t).reverse := by
    rw [← hrev, List.reverse_reverse]
  have hrev2 : (xs ++ ys).reverse = a :: b :: (t ++ xs.reverse) := by
    rw [List.reverse_append, hrev]; simp
  unfold stripPad
  rw [hrev2, hrev]
  by_cases ha : a = '='
  · by_cases hb : b = '='
    · subst ha; subst hb
      simp [List.reverse_append]
    · subst ha
      simp only [if_pos rfl, if_neg hb]
      simp [List.reverse_append]
  · simp only [if_neg ha]

theorem stripPad_encode (bs : List Nat) (hb : ∀ b ∈ bs, b < 256) :
    stripPad (b64EncodeBytes bs) = (encSixes bs).map sixToChar := by
  induction bs using chunkRec with
  | h0 => rfl
  | h1 a => rfl
  | h2 a b =>
      have hc3 : sixToChar (b % 16 * 4) ≠ '=' :=
        sixToChar_ne_eq _ (by omega)
      simp only [b64EncodeBytes, encSixes, List.map, stripPad,
        List.reverse_cons, List.reverse_nil]
      simp [hc3]
  | h3 a b c rest ih =>
      have hb' : ∀ x ∈ rest, x < 256 := fun x hx => hb x (by simp [hx])
      have ih' := ih hb'
      match rest with
      | [] =>
          have hc4 : sixToChar (c % 64) ≠ '=' := sixToChar_ne_eq _ (by omega)
          simp only [b64EncodeBytes, encSixes, List.map, stripPad,
            List.reverse_cons, List.reverse_nil]
          simp [hc4]
      | r :: rs =>
          have hlen : 2 ≤ (b64EncodeBytes (r :: rs)).length := by
            have := b64EncodeBytes_length_ge r rs; omega
          have : b64EncodeBytes (a :: b :: c :: r :: rs) =
              [sixToChar (a / 4), sixToChar (a % 4 * 16 + b / 16),
               sixToChar (b % 16 * 4 + c / 64), sixToChar (c % 64)] ++
              b64EncodeBytes (r :: rs) := rfl
          rw [this, stripPad_append _ _ hlen, ih']
          rfl

theorem encSixes_length_mod4 (bs : List Nat) :
    (encSixes bs).length % 4 ≠ 1 := by
  induction bs using chunkRec with
  | h0 => simp [encSixes]
  | h1 a => simp [encSixes]
  | h2 a b => simp [encSixes]
  | h3 a b c rest ih =>
      simp only [encSixes, List.length_cons]
      omega

theorem encSixes_lt_64 (bs : List Nat) (hb : ∀ b ∈ bs, b < 256) :
    ∀ x ∈ encSixes bs, x < 64 := by
  induction bs using chunkRec with
  | h0 => simp [encSixes]
  | h1 a =>
      have := hb a (by simp)
      simp only [encSixes, List.mem_cons, List.mem_singleton]
      rintro x (rfl | rfl | h) <;> first | omega | simp at h
  | h2 a b =>
      have ha := hb a (by simp)
      have hbb := hb b (by simp)
      simp only [encSixes, List.mem_cons, List.mem_singleton]
      rintro x (rfl | rfl | rfl | h) <;> first | omega | simp at h
  | h3 a b c rest ih =>
      have ha := hb a (by simp)
      have hbb := hb b (by simp)
      have hc := hb c (by simp)
      have ih' := ih fun x hx => hb x (by simp [hx])
      simp only [encSixes, List.mem_cons]
      rintro x (rfl | rfl | rfl | rfl | h)
      · omega
      · omega
      · omega
      · omega
      · exact ih' x h

theorem traverseSix_map (sixes : List Nat) (h : ∀ x ∈ sixes, x < 64) :
    traverseSix (sixes.map sixToChar) = some sixes := by
  induction sixes with
  | nil => rfl
  | cons x xs ih =>
      have hx := h x (by simp)
      have ih' := ih fun y hy => h y (by simp [hy])
      simp only [List.map, traverseSix, charToSix_sixToChar x hx, ih']

theorem b64DecodeSixes_encSixes (bs : List Nat) (hb : ∀ b ∈ bs, b < 256) :
    b64DecodeSixes (encSixes bs) = bs := by
  induction bs using chunkRec with
  | h0 => simp [encSixes, b64DecodeSixes]
  | h1 a =>
      have := hb a (by simp)
      simp only [encSixes, b64DecodeSixes, List.cons.injEq, and_true]
      omega
  | h2 a b =>
      have ha := hb a (by simp)
      have hbb := hb b (by simp)
      simp only [encSixes, b64DecodeSixes, List.cons.injEq, and_true]
      constructor <;> omega
  | h3 a b c rest ih =>
      have ha := hb a (by simp)
      have hbb := hb b (by simp)
      have hc := hb c (by simp)
      have ih' := ih fun x hx => hb x (by simp [hx])
      have hdec : b64DecodeSixes (a / 4 :: (a % 4 * 16 + b / 16) ::
          (b % 16 * 4 + c / 64) :: c % 64 :: encSixes rest) =
          (a / 4 * 4 + (a % 4 * 16 + b / 16) / 16) ::
          ((a % 4 * 16 + b / 16) % 16 * 16 + (b % 16 * 4 + c / 64) / 4) ::
          ((b % 16 * 4 + c / 64) % 4 * 64 + c % 64) ::
          b64DecodeSixes (encSixes rest) := rfl
      simp only [encSixes, hdec, ih', List.cons.injEq, and_true]
      refine ⟨by omega, by omega, by omega⟩

theorem b64EncodeBytes_chars (bs : List Nat) (hb : ∀ b ∈ bs, b < 256) :
    ∀ c ∈ b64EncodeBytes bs, (∃ n, n < 64 ∧ c = sixToChar n) ∨ c = '=' := by
  induction bs using chunkRec with
  | h0 => simp [b64EncodeBytes]
  | h1 a =>
      have := hb a (by simp)
      simp only [b64EncodeBytes, List.mem_cons, List.mem_singleton]
      rintro c (rfl | rfl | rfl | rfl | h)
      · exact Or.inl ⟨a / 4, by omega, rfl⟩
      · exact Or.inl ⟨a % 4 * 16, by omega, rfl⟩
      · exact Or.inr rfl
      · exact Or.inr rfl
      · simp at h
  | h2 a b =>
      have ha := hb a (by simp)
      have hbb := hb b (by simp)
      simp only [b64EncodeBytes, List.mem_cons, List.mem_singleton]
      rintro c (rfl | rfl | rfl | rfl | h)
      · exact Or.inl ⟨a / 4, by omega, rfl⟩
      · exact Or.inl ⟨a % 4 * 16 + b / 16, by omega, rfl⟩
      · exact Or.inl ⟨b % 16 * 4, by omega, rfl⟩
      · exact Or.inr rfl
      · simp at h
  | h3 a b c rest ih =>
      have ha := hb a (by simp)
      have hbb := hb b (by simp)
      have hc := hb c (by simp)
      have ih' := ih fun x hx => hb x (by simp [hx])
      simp only [b64EncodeBytes, List.mem_cons]
      rintro x (rfl | rfl | rfl | rfl | h)
      · exact Or.inl ⟨a / 4, by omega, rfl⟩
      · exact Or.inl ⟨a % 4 * 16 + b / 16, by omega, rfl⟩
      · exact Or.inl ⟨b % 16 * 4 + c / 64, by omega, rfl⟩
      · exact Or.inl ⟨c % 64, by omega, rfl⟩
      · exact ih' x h

theorem b64EncodeBytes_no_ws (bs : List Nat) (hb : ∀ b ∈ bs, b < 256) :
    (b64EncodeBytes bs).filter (fun c => !(isB64Ws c)) = b64EncodeBytes bs := by
  rw [List.filter_eq_self]
  intro c hc
  rcases b64EncodeBytes_chars bs hb c hc with ⟨n, hn, rfl⟩ | rfl
  · simp [sixToChar_not_ws n hn]
  · decide

theorem b64DecodeChars_encode (bs : List Nat) (hb : ∀ b ∈ bs, b < 256) :
    b64DecodeChars (b64EncodeBytes bs) = some bs := by
  unfold b64DecodeChars
  rw [if_pos (b64EncodeBytes_length_mod4 bs), stripPad_encode bs hb]
  have hlen : ((encSixes bs).map sixToChar).length % 4 ≠ 1 := by
    rw [List.length_map]; exact encSixes_length_mod4 bs
  rw [if_neg hlen, traverseSix_map _ (encSixes_lt_64 bs hb)]
  simp [b64DecodeSixes_encSixes bs hb]

/-- Round trip: `atob` inverts `btoa`: any string `btoa` accepts is recovered exactly
by the forgiving-base64 decode of its encoding. -/
theorem atob_btoa (s t : String) (h : btoaOpt s = some t) :
    atobOpt t = some s := by
  unfold btoaOpt at h
  by_cases hall : s.data.all (fun c => c.toNat < 256)
  · rw [if_pos hall] at h
    have ht : t = String.mk (b64EncodeBytes (s.data.map Char.toNat)) :=
      (Option.some.inj h).symm
    have hb : ∀ b ∈ s.data.map Char.toNat, b < 256 := by
      intro b hbmem
      rcases List.mem_map.mp hbmem with ⟨c, hc, rfl⟩
      exact Nat.lt_of_lt_of_le (by
        have := List.all_eq_true.mp hall c hc
        simpa using this) (le_refl _)
    unfold atobOpt
    have hdata : t.data = b64EncodeBytes (s.data.map Char.toNat) := by
      rw [ht]
    rw [hdata, b64EncodeBytes_no_ws _ hb, b64DecodeChars_encode _ hb]
    simp only [Option.some.injEq]
    have : (s.data.map Char.toNat).map Char.ofNat = s.data := by
      rw [List.map_map]
      have : (Char.ofNat ∘ Char.toNat) = id := by
        funext c; simp [Function.comp, Char.ofNat_toNat]
      rw [this, List.map_id]
    rw [this]
  · rw [if_neg hall] at h
    exact absurd h (by simp)

/-! ## JavaScript string helpers

`String.prototype.split(sep)`, `String.prototype.trim`, and the truthiness
test used by `filter(Boolean)` / `||`. -/

/-- Whitespace for `String.prototype.trim` (the code points produced by the
worker are ASCII; the full ECMAScript set additionally holds NBSP, BOM and
the Unicode space separators, included here for faithfulness). -/
def isJsWs (c : Char) : Bool :=
  c.toNat = 9 ∨ c.toNat = 10 ∨ c.toNat = 11 ∨ c.toNat = 12 ∨
  c.toNat = 13 ∨ c.toNat = 32 ∨ c.toNat = 160 ∨ c.toNat = 5760 ∨
  (8192 ≤ c.toNat ∧ c.toNat ≤ 8202) ∨ c.toNat = 8232 ∨ c.toNat = 8233 ∨
  c.toNat = 8239 ∨ c.toNat = 8287 ∨ c.toNat = 12288 ∨ c.toNat = 65279

/-- Model of `s.trim()`. -/
def jsTrim (s : String) : String :=
  String.mk (((s.data.dropWhile isJsWs).reverse.dropWhile isJsWs).reverse)

/-- Model of `String.prototype.split` with a single-character separator, at the
character-list level: `"".split(sep)` is `[""]`, and separators at the
ends produce empty segments, exactly as in JavaScript. -/
def splitOnCharList (sep : Char) : List Char → List (List Char)
  | [] => [[]]
  | c :: cs =>
    let r := splitOnCharList sep cs
    if c = sep then [] :: r
    else
      match r with
      | h :: t => (c :: h) :: t
      | [] => [[c]]

/-- Model of `s.split(sep)` for a one-character separator. -/
def jsSplitChar (sep : Char) (s : String) : List String :=
  (splitOnCharList sep s.data).map String.mk

/-! ## Source fetcher (`fetchSubscriptionNodes`)

Network I/O is replaced by an oracle assigning each URL its outcome:
a thrown network exception, or an HTTP response with an `ok` flag and a
body text.  The function is total — every JavaScript path either returns
a list or is caught and returns `[]`. -/

/-- Outcome of `fetch(subUrl)` as far as the worker observes it. -/
inductive FetchResult
  | netError
  | httpResp (ok : Bool) (body : String)
deriving DecidableEq

/-- The network, as a map from URL to outcome. -/
def Oracle := String → FetchResult

/-- Model of `fetchSubscriptionNodes(subUrl)`:
* `data:` URLs: base64-decode `subUrl.split(',')[1]` and split the result
  on newlines (no comma, or decode failure, is caught and yields `[]`;
  `atob(undefined)` coerces to the string `"undefined"`, whose length is
  ≡ 1 (mod 4), so it also fails);
* other URLs: on network error or non-`ok` status return `[]`; otherwise
  try `atob` on the whole body, split the decoded text (or, when decoding
  fails, the body itself) on newlines, and drop lines that trim to `""`. -/
def fetchSubscriptionNodes (o : Oracle) (subUrl : String) : List String :=
  if "data:".data.isPrefixOf subUrl.data then
    match (jsSplitChar ',' subUrl)[1]? with
    | some payload =>
      match atobOpt payload with
      | some decoded => jsSplitChar '\n' decoded
      | none => []
    | none => []
  else
    match o subUrl with
    | .netError => []
    | .httpResp ok body =>
      if ok then
        match atobOpt body with
        | some decoded => (jsSplitChar '\n' decoded).filter (fun l => jsTrim l ≠ "")
        | none => (jsSplitChar '\n' body).filter (fun l => jsTrim l ≠ "")
      else []

/-! ## Aggregator (`handleSubscription`) -/

/-- A stored `SUBS_GROUP:<id>` record (`{name, links}` after `JSON.parse`;
either property may be absent). -/
structure GroupData where
  name : Option String
  links : Option (List String)
deriving DecidableEq

/-- The KV store restricted to `SUBS_GROUP:` keys: group id to record. -/
def GroupStore := String → Option GroupData

/-- The subscription endpoint's response: 400 for a missing group id, 404
for an unknown group, 200 with the base64 body, or 500 when the handler
throws (e.g. `btoa` on a code point above 255). -/
inductive SubResponse
  | badRequest
  | notFound
  | ok (body : String)
  | serverError
deriving DecidableEq

/-- Model of `[...new Set(l)]`: insertion-ordered deduplication, first occurrence
wins; `seen` holds the elements already inserted. -/
def jsSetDedupAux (seen : List String) : List String → List String
  | [] => []
  | x :: xs =>
    if x ∈ seen then jsSetDedupAux seen xs
    else x :: jsSetDedupAux (x :: seen) xs

/-- Model of `[...new Set(l)]`. -/
def jsSetDedup (l : List String) : List String := jsSetDedupAux [] l

/-- Model of `handleSubscription(request, env, groupId)`: look up the group, fetch
every link, flatten, drop falsy (empty) entries, deduplicate via `Set`,
join with newlines and base64-encode. -/
def handleSubscription (o : Oracle) (store : GroupStore) (groupId : String) :
    SubResponse :=
  if groupId = "" then .badRequest
  else
    match store groupId with
    | none => .notFound
    | some gd =>
      match btoaOpt (String.intercalate "\n" (jsSetDedup
        ((((gd.links.getD []).map (fetchSubscriptionNodes o)).flatten).filter
          (fun s => s ≠ "")))) with
      | some body => .ok body
      | none => .serverError

/-! ### Properties of the `Set` dedup -/

theorem mem_jsSetDedupAux (seen l : List String) (x : String) :
    x ∈ jsSetDedupAux seen l ↔ x ∈ l ∧ x ∉ seen := by
  induction l generalizing seen with
  | nil => simp [jsSetDedupAux]
  | cons y ys ih =>
      by_cases hy : y ∈ seen
      · rw [jsSetDedupAux, if_pos hy, ih]
        constructor
        · rintro ⟨hmem, hns⟩; exact ⟨by simp [hmem], hns⟩
        · rintro ⟨hmem, hns⟩
          rcases List.mem_cons.mp hmem with rfl | hmem
          · exact absurd hy hns
          · exact ⟨hmem, hns⟩
      · rw [jsSetDedupAux, if_neg hy]
        simp only [List.mem_cons, ih]
        constructor
        · rintro (rfl | ⟨hmem, hns⟩)
          · exact ⟨Or.inl rfl, hy⟩
          · refine ⟨Or.inr hmem, fun hc => hns (by simp [hc])⟩
        · rintro ⟨rfl | hmem, hns⟩
          · exact Or.inl rfl
          · by_cases hxy : x = y
            · exact Or.inl hxy
            · exact Or.inr ⟨hmem, by simp [hxy, hns]⟩

theorem nodup_jsSetDedupAux (seen l : List String) :
    (jsSetDedupAux seen l).Nodup := by
  induction l generalizing seen with
  | nil => simp [jsSetDedupAux]
  | cons y ys ih =>
      by_cases hy : y ∈ seen
      · rw [jsSetDedupAux, if_pos hy]; exact ih seen
      · rw [jsSetDedupAux, if_neg hy]
        refine List.nodup_cons.mpr ⟨fun hc => ?_, ih (y :: seen)⟩
        exact ((mem_jsSetDedupAux _ _ _).mp hc).2 (by simp)

theorem sublist_jsSetDedupAux (seen l : List String) :
    (jsSetDedupAux seen l).Sublist l := by
  induction l generalizing seen with
  | nil => simp [jsSetDedupAux]
  | cons y ys ih =>
      by_cases hy : y ∈ seen
      · rw [jsSetDedupAux, if_pos hy]
        exact (ih seen).cons y
      · rw [jsSetDedupAux, if_neg hy]
        exact (ih (y :: seen)).cons₂ y

theorem jsSetDedupAux_congr (l : List String) (seen1 seen2 : List String)
    (h : ∀ y ∈ l, (y ∈ seen1 ↔ y ∈ seen2)) :
    jsSetDedupAux seen1 l = jsSetDedupAux seen2 l := by
  induction l generalizing seen1 seen2 with
  | nil => rfl
  | cons y ys ih =>
      have hy := h y (by simp)
      by_cases h1 : y ∈ seen1
      · rw [jsSetDedupAux, if_pos h1, jsSetDedupAux, if_pos (hy.mp h1)]
        exact ih seen1 seen2 fun z hz => h z (by simp [hz])
      · rw [jsSetDedupAux, if_neg h1, jsSetDedupAux,
          if_neg (fun hc => h1 (hy.mpr hc))]
        congr 1
        refine ih (y :: seen1) (y :: seen2) fun z hz => ?_
        simp only [List.mem_cons]
        rw [h z (by simp [hz])]

theorem jsSetDedupAux_filter_ne (l : List String) (seen : List String)
    (x : String) (hx : x ∈ seen) :
    jsSetDedupAux seen (l.filter (fun y => y ≠ x)) = jsSetDedupAux seen l := by
  induction l generalizing seen with
  | nil => rfl
  | cons y ys ih =>
      by_cases hyx : y = x
      · subst hyx
        rw [List.filter_cons, if_neg (by simp), jsSetDedupAux, if_pos hx]
        exact ih seen hx
      · rw [List.filter_cons, if_pos (by simp [hyx])]
        by_cases hy : y ∈ seen
        · rw [jsSetDedupAux, if_pos hy, jsSetDedupAux, if_pos hy]
          exact ih seen hx
        · rw [jsSetDedupAux, if_neg hy, jsSetDedupAux, if_neg hy]
          congr 1
          exact ih (y :: seen) (by simp [hx])

/-- First-occurrence recurrence of the `Set` dedup: the head survives and
every later copy of it is discarded. -/
theorem jsSetDedup_cons (x : String) (xs : List String) :
    jsSetDedup (x :: xs) = x :: jsSetDedup (xs.filter (fun y => y ≠ x)) := by
  unfold jsSetDedup
  rw [jsSetDedupAux, if_neg (List.not_mem_nil x)]
  congr 1
  rw [← jsSetDedupAux_filter_ne xs [x] x (by simp)]
  refine jsSetDedupAux_congr _ [x] [] fun y hy => ?_
  have : y ≠ x := by
    rcases List.mem_filter.mp hy with ⟨-, h2⟩
    simpa using h2
  simp [this]

/-! ### `split` over concatenations (for the `data:` payload extraction) -/

theorem splitOnCharList_append (sep : Char) (xs ys : List Char)
    (h : sep ∉ xs) :
    splitOnCharList sep (xs ++ sep :: ys) = xs :: splitOnCharList sep ys := by
  induction xs with
  | nil => simp [splitOnCharList]
  | cons c cs ih =>
      have hc : c ≠ sep := fun hc => h (by simp [hc])
      have ih' := ih (fun hm => h (by simp [hm]))
      rw [List.cons_append, splitOnCharList]
      simp only [if_neg hc, ih']

theorem splitOnCharList_ne_nil (sep : Char) (l : List Char) :
    splitOnCharList sep l ≠ [] := by
  cases l with
  | nil => simp [splitOnCharList]
  | cons c cs =>
      rw [splitOnCharList]
      by_cases hc : c = sep
      · simp [hc]
      · simp only [if_neg hc]
        match h : splitOnCharList sep cs with
        | [] => simp
        | x :: t => simp

theorem splitOnCharList_no_sep (sep : Char) (cs : List Char)
    (h : sep ∉ cs) : splitOnCharList sep cs = [cs] := by
  induction cs with
  | nil => rfl
  | cons c cs ih =>
      have hc : c ≠ sep := fun hc => h (by simp [hc])
      rw [splitOnCharList]
      simp only [if_neg hc, ih (fun hm => h (by simp [hm]))]

theorem mem_splitOnCharList (sep : Char) (cs : List Char) :
    ∀ l ∈ splitOnCharList sep cs, sep ∉ l := by
  induction cs with
  | nil =>
      intro l hl
      simp only [splitOnCharList, List.mem_singleton] at hl
      subst hl; simp
  | cons c cs ih =>
      intro l hl
      rw [splitOnCharList] at hl
      by_cases hc : c = sep
      · rw [if_pos hc] at hl
        rcases List.mem_cons.mp hl with rfl | hmem
        · simp
        · exact ih l hmem
      · rw [if_neg hc] at hl
        match hr : splitOnCharList sep cs with
        | [] => exact absurd hr (splitOnCharList_ne_nil sep cs)
        | h :: t =>
            rw [hr] at hl
            rcases List.mem_cons.mp hl with rfl | hmem
            · intro hmem2
              rcases List.mem_cons.mp hmem2 with heq | hmem3
              · exact hc heq.symm
              · exact ih h (hr ▸ List.mem_cons_self h t) hmem3
            · exact ih l (hr ▸ List.mem_cons_of_mem h hmem)

theorem mem_jsSplitChar_not_sep (sep : Char) (s : String) (x : String)
    (hx : x ∈ jsSplitChar sep s) : sep ∉ x.data := by
  unfold jsSplitChar at hx
  rcases List.mem_map.mp hx with ⟨l, hl, rfl⟩
  exact mem_splitOnCharList sep s.data l hl

/-! ### Joining with a separator and splitting again

`String.intercalate` is accumulator-recursive; `joinTail` names the tail
of the join so that the split-of-join identity can be proved by plain
induction. -/

/-- Tail of `String.intercalate sep (a :: as)` after the head `a`. -/
def joinTail (sep : String) : List String → String
  | [] => ""
  | a :: as => sep ++ a ++ joinTail sep as

theorem intercalate_go_eq (sep : String) (as : List String) :
    ∀ acc, String.intercalate.go acc sep as = acc ++ joinTail sep as := by
  induction as with
  | nil =>
      intro acc
      show acc = acc ++ ""
      rw [String.append_empty]
  | cons a as ih =>
      intro acc
      show String.intercalate.go (acc ++ sep ++ a) sep as = _
      rw [ih]
      simp [joinTail, String.append_assoc]

theorem intercalate_cons_eq (sep a : String) (as : List String) :
    String.intercalate sep (a :: as) = a ++ joinTail sep as := by
  show String.intercalate.go a sep as = _
  rw [intercalate_go_eq]

theorem splitOnCharList_join (a : String) (as : List String)
    (ha : '\n' ∉ a.data) (has : ∀ x ∈ as, '\n' ∉ x.data) :
    splitOnCharList '\n' (a.data ++ (joinTail "\n" as).data) =
      a.data :: as.map String.data := by
  induction as generalizing a with
  | nil =>
      show splitOnCharList '\n' (a.data ++ ([] : List Char)) = [a.data]
      rw [List.append_nil]
      exact splitOnCharList_no_sep '\n' a.data ha
  | cons b bs ih =>
      have hdata : (joinTail "\n" (b :: bs)).data =
          '\n' :: (b.data ++ (joinTail "\n" bs).data) := by
        show (("\n" ++ b) ++ joinTail "\n" bs).data = _
        rw [String.data_append, String.data_append]
        rfl
      rw [hdata, splitOnCharList_append '\n' a.data _ ha,
        ih b (has b (by simp)) (fun x hx => has x (by simp [hx]))]
      rfl

theorem jsSplitChar_intercalate (a : String) (as : List String)
    (ha : '\n' ∉ a.data) (has : ∀ x ∈ as, '\n' ∉ x.data) :
    jsSplitChar '\n' (String.intercalate "\n" (a :: as)) = a :: as := by
  unfold jsSplitChar
  rw [intercalate_cons_eq, String.data_append,
    splitOnCharList_join a as ha has, List.map_cons, List.map_map]
  have hid : (String.mk ∘ String.data) = id := funext fun x => rfl
  rw [hid, List.map_id]

/-! ## JavaScript `||` on possibly-absent strings

`a || b` where `a` is a property access: `undefined` and `""` are falsy. -/

/-- Model of `a || b` for a possibly-absent string property. -/
def jsOrStr (a : Option String) (b : String) : String :=
  match a with
  | some s => if s = "" then b else s
  | none => b

/-! ## Percent-encoding (`encodeURIComponent`, `URLSearchParams`) -/

/-- UTF-8 bytes of one code point. -/
def utf8Bytes (c : Char) : List Nat :=
  let n := c.toNat
  if n < 128 then [n]
  else if n < 2048 then [192 + n / 64, 128 + n % 64]
  else if n < 65536 then [224 + n / 4096, 128 + n / 64 % 64, 128 + n % 64]
  else [240 + n / 262144, 128 + n / 4096 % 64, 128 + n / 64 % 64,
        128 + n % 64]

/-- Uppercase hexadecimal digit. -/
def hexDigitUpper (n : Nat) : Char :=
  if n < 10 then Char.ofNat (48 + n) else Char.ofNat (55 + n)

/-- Percent escape `%XX` of one byte. -/
def percentByte (b : Nat) : String :=
  String.mk ['%', hexDigitUpper (b / 16), hexDigitUpper (b % 16)]

/-- Characters `encodeURIComponent` leaves unescaped:
`A–Z a–z 0–9 - _ . ! ~ * ' ( )`. -/
def isUriUnreserved (c : Char) : Bool :=
  let n := c.toNat
  (65 ≤ n ∧ n ≤ 90) ∨ (97 ≤ n ∧ n ≤ 122) ∨ (48 ≤ n ∧ n ≤ 57) ∨
  n = 45 ∨ n = 95 ∨ n = 46 ∨ n = 33 ∨ n = 126 ∨ n = 42 ∨ n = 39 ∨
  n = 40 ∨ n = 41

/-- Model of `encodeURIComponent(s)`. -/
def encodeURIComponent (s : String) : String :=
  String.join (s.data.map fun c =>
    if isUriUnreserved c then String.singleton c
    else String.join ((utf8Bytes c).map percentByte))

/-- Bytes the `application/x-www-form-urlencoded` serializer keeps
verbatim: `* - . _ 0–9 A–Z a–z`. -/
def isFormByteKept (b : Nat) : Bool :=
  b = 42 ∨ b = 45 ∨ b = 46 ∨ b = 95 ∨ (48 ≤ b ∧ b ≤ 57) ∨
  (65 ≤ b ∧ b ≤ 90) ∨ (97 ≤ b ∧ b ≤ 122)

/-- Escaping for `application/x-www-form-urlencoded` serialization of one string (space
becomes `+`, kept bytes stay, everything else is `%XX`), as used by
`URLSearchParams.prototype.toString`. -/
def formUrlEncode (s : String) : String :=
  String.join (s.data.map fun c =>
    String.join ((utf8Bytes c).map fun b =>
      if b = 32 then "+"
      else if isFormByteKept b then String.singleton (Char.ofNat b)
      else percentByte b))

/-- Model of `new URLSearchParams(obj).toString()` for an object literal: entries
in insertion order, each serialized `key=value` and joined with `&`. -/
def urlSearchParamsToString (ps : List (String × String)) : String :=
  String.intercalate "&"
    (ps.map fun kv => formUrlEncode kv.1 ++ "=" ++ formUrlEncode kv.2)

/-! ## JSON serialization (`JSON.stringify` on the vmess descriptor) -/

/-- Lowercase hexadecimal digit. -/
def hexDigitLower (n : Nat) : Char :=
  if n < 10 then Char.ofNat (48 + n) else Char.ofNat (87 + n)

/-- Escaping by `JSON.stringify` of one character inside a string. -/
def jsonEscapeChar (c : Char) : String :=
  if c = '"' then "\\\""
  else if c = '\\' then "\\\\"
  else if c.toNat = 8 then "\\b"
  else if c.toNat = 9 then "\\t"
  else if c.toNat = 10 then "\\n"
  else if c.toNat = 12 then "\\f"
  else if c.toNat = 13 then "\\r"
  else if c.toNat < 32 then
    "\\u00" ++ String.mk [hexDigitLower (c.toNat / 16),
                          hexDigitLower (c.toNat % 16)]
  else String.singleton c

/-- Serialization by `JSON.stringify` of a string value. -/
def jsonStr (s : String) : String :=
  "\"" ++ String.join (s.data.map jsonEscapeChar) ++ "\""

/-! ## Config importer (`parseXrayConfig`) -/

/-- One entry of `settings.vnext[*].users`. -/
structure XUser where
  id : String
  alterId : Option Nat
  flow : Option String
  encryption : Option String
deriving DecidableEq

/-- One entry of `settings.vnext`. -/
structure XServer where
  address : String
  port : Nat
  users : List XUser
  remark : Option String
deriving DecidableEq

/-- Field `streamSettings.wsSettings`. -/
structure WsSettings where
  path : Option String
  headersHost : Option String
deriving DecidableEq

/-- Field `streamSettings.httpSettings` (`host` is an array when present). -/
structure HttpSettings where
  path : Option String
  host : Option (List String)
deriving DecidableEq

/-- Field `streamSettings` of an outbound. -/
structure StreamSettings where
  network : Option String
  security : Option String
  wsSettings : Option WsSettings
  httpSettings : Option HttpSettings
deriving DecidableEq

/-- One element of `outbounds`. -/
structure Outbound where
  protocol : String
  remark : Option String
  vnext : Option (List XServer)
  streamSettings : Option StreamSettings
deriving DecidableEq

/-- A parsed Xray config: `outbounds` when present and an array. -/
structure XrayConfig where
  outbounds : Option (List Outbound)
deriving DecidableEq

/-- The vmess descriptor object built per server, key order as in the
source.  `aid` is `users[0].alterId` and is dropped from the JSON when
`undefined`. -/
structure VmessObj where
  v : String
  ps : String
  add : String
  port : Nat
  id : String
  aid : Option Nat
  net : String
  vtype : String
  host : String
  path : String
  tls : String
deriving DecidableEq

/-- Serialization by `JSON.stringify` of the vmess descriptor: keys in insertion order
`v, ps, add, port, id, aid, net, type, host, path, tls`; `port` (and a
present `aid`) serialize as numbers; an `undefined` `aid` is omitted. -/
def vmessJsonStr (o : VmessObj) : String :=
  "\x7b\"v\":" ++ jsonStr o.v ++
  ",\"ps\":" ++ jsonStr o.ps ++
  ",\"add\":" ++ jsonStr o.add ++
  ",\"port\":" ++ toString o.port ++
  ",\"id\":" ++ jsonStr o.id ++
  (match o.aid with
   | some a => ",\"aid\":" ++ toString a
   | none => "") ++
  ",\"net\":" ++ jsonStr o.net ++
  ",\"type\":" ++ jsonStr o.vtype ++
  ",\"host\":" ++ jsonStr o.host ++
  ",\"path\":" ++ jsonStr o.path ++
  ",\"tls\":" ++ jsonStr o.tls ++ "\x7d"

/-- Transparent `mapM` into `Option`: any failure discards everything,
matching the `try`/`catch` around the whole import loop. -/
def mapMOpt (f : α → Option β) : List α → Option (List β)
  | [] => some []
  | x :: xs =>
    match f x, mapMOpt f xs with
    | some y, some ys => some (y :: ys)
    | _, _ => none

/-- Accessor for `outbound.streamSettings?.network` etc. -/
def ssNetwork (ob : Outbound) : Option String := ob.streamSettings.bind (·.network)

def ssSecurity (ob : Outbound) : Option String := ob.streamSettings.bind (·.security)

def ssWsPath (ob : Outbound) : Option String :=
  (ob.streamSettings.bind (·.wsSettings)).bind (·.path)

def ssWsHost (ob : Outbound) : Option String :=
  (ob.streamSettings.bind (·.wsSettings)).bind (·.headersHost)

def ssHttpPath (ob : Outbound) : Option String :=
  (ob.streamSettings.bind (·.httpSettings)).bind (·.path)

/-- Accessor for `streamSettings?.httpSettings?.host?.[0]`. -/
def ssHttpHost0 (ob : Outbound) : Option String :=
  ((ob.streamSettings.bind (·.httpSettings)).bind (·.host)).bind List.head?

/-- The vmess branch body for one server.  `users[0]` on an empty array
throws (caught by the outer handler), hence `none`; a `btoa` failure
likewise. -/
def importServerVmess (ob : Outbound) (remark : String) (server : XServer) :
    Option String :=
  match server.users.head? with
  | none => none
  | some u =>
    let obj : VmessObj :=
      { v := "2"
        ps := jsOrStr server.remark remark
        add := server.address
        port := server.port
        id := u.id
        aid := u.alterId
        net := jsOrStr (ssNetwork ob) "tcp"
        vtype := "none"
        host := jsOrStr (ssWsHost ob) (jsOrStr (ssHttpHost0 ob) "")
        path := jsOrStr (ssWsPath ob) (jsOrStr (ssHttpPath ob) "")
        tls := if ssSecurity ob = some "tls" then "tls" else "" }
    match btoaOpt (vmessJsonStr obj) with
    | some b => some ("vmess://" ++ b)
    | none => none

/-- The vless branch body for one server. -/
def importServerVless (ob : Outbound) (remark : String) (server : XServer) :
    Option String :=
  match server.users.head? with
  | none => none
  | some u =>
    let params : List (String × String) :=
      [("type", jsOrStr (ssNetwork ob) "tcp"),
       ("security", jsOrStr (ssSecurity ob) "none"),
       ("path", encodeURIComponent (jsOrStr (ssWsPath ob) "")),
       ("host", jsOrStr (ssWsHost ob) ""),
       ("flow", jsOrStr u.flow ""),
       ("encryption", jsOrStr u.encryption "none")]
    some ("vless://" ++ u.id ++ "@" ++ server.address ++ ":" ++
      toString server.port ++ "?" ++ urlSearchParamsToString params ++
      "#" ++ encodeURIComponent (jsOrStr server.remark remark))

/-- Links contributed by one outbound (`none` when the loop body threw). -/
def importOutbound (ob : Outbound) : Option (List String) :=
  if ob.protocol = "vmess" then
    match ob.vnext with
    | some servers =>
        mapMOpt (importServerVmess ob (jsOrStr ob.remark "imported-node")) servers
    | none => some []
  else if ob.protocol = "vless" then
    match ob.vnext with
    | some servers =>
        mapMOpt (importServerVless ob (jsOrStr ob.remark "imported-node")) servers
    | none => some []
  else some []

/-- Model of `parseXrayConfig(configStr)`: the `none` input is a `JSON.parse`
failure; a missing/non-array `outbounds` yields `[]`; any exception in
the loop (absent `users[0]`, non-latin1 `btoa` input) discards all
accumulated nodes and yields `[]`. -/
def parseXrayConfig (cfg : Option XrayConfig) : List String :=
  match cfg with
  | none => []
  | some c =>
    match c.outbounds with
    | none => []
    | some obs =>
      match mapMOpt importOutbound obs with
      | some nodeLists => nodeLists.flatten
      | none => []

/-! ## Admin `getConfig` (`handleAdminApi`, `checkAuth`)

The stored `CONFIG` JSON object is modelled as an association list so
that `delete config.password` is an observable list operation. -/

/-- A parsed `CONFIG` object: fields in insertion order. -/
abbrev KVConfig := List (String × String)

/-- Value of a key, first occurrence. -/
def lookupKey (k : String) : KVConfig → Option String
  | [] => none
  | kv :: rest => if kv.1 = k then some kv.2 else lookupKey k rest

/-- JavaScript property assignment: replace the first occurrence in
place, append when absent. -/
def setKey (k v : String) : KVConfig → KVConfig
  | [] => [(k, v)]
  | kv :: rest => if kv.1 = k then (k, v) :: rest else kv :: setKey k v rest

/-- Model of `delete config.password` (object keys are unique, so deleting the
key is removing every pair carrying it). -/
def deletePassword (cfg : KVConfig) : KVConfig :=
  cfg.filter (fun kv => kv.1 ≠ "password")

/-- Responses of the admin `getConfig` action. -/
inductive AdminResp
  | authFail (status : Nat) (message : String)
  | getConfigOk (data : KVConfig) (isConfigured : Bool)
deriving DecidableEq

/-- The `getConfig` action including `checkAuth`: `stored` is the parsed
`CONFIG` value when the key exists, `bearer` the token of a well-formed
`Authorization: Bearer` header.  With no (or an empty) saved password,
`getConfig` is allowed unauthenticated; otherwise the token must equal
the saved password.  On success the handler deletes the password from
the parsed config and reports `isConfigured` as key presence. -/
def adminGetConfig (stored : Option KVConfig) (bearer : Option String) :
    AdminResp :=
  let saved := lookupKey "password" (stored.getD [])
  if saved = none ∨ saved = some "" then
    .getConfigOk (deletePassword (stored.getD [])) stored.isSome
  else
    match bearer with
    | none => .authFail 401 "Authorization header is missing."
    | some t =>
      if some t ≠ saved then .authFail 401 "Invalid token."
      else .getConfigOk (deletePassword (stored.getD [])) stored.isSome

/-! ### Fetched entries are newline-free

Every entry is produced by splitting some text on `'\n'`, so no entry
contains a newline; hence the deduplicated sequence is recovered exactly
by splitting the joined output. -/

theorem fetch_entries_newline_free (o : Oracle) (url : String) :
    ∀ x ∈ fetchSubscriptionNodes o url, '\n' ∉ x.data := by
  intro x hx
  unfold fetchSubscriptionNodes at hx
  split at hx
  · split at hx
    · split at hx
      · exact mem_jsSplitChar_not_sep '\n' _ x hx
      · simp at hx
    · simp at hx
  · split at hx
    · simp at hx
    · split at hx
      · split at hx
        · exact mem_jsSplitChar_not_sep '\n' _ x (List.mem_filter.mp hx).1
        · exact mem_jsSplitChar_not_sep '\n' _ x (List.mem_filter.mp hx).1
      · simp at hx

theorem entries_newline_free (o : Oracle) (gd : GroupData) :
    ∀ x ∈ jsSetDedup
      ((((gd.links.getD []).map (fetchSubscriptionNodes o)).flatten).filter
        (fun s => s ≠ "")), '\n' ∉ x.data := by
  intro x hx
  have hmem := (mem_jsSetDedupAux [] _ x).mp hx
  have hflt := (List.mem_filter.mp hmem.1).1
  rcases List.mem_flatten.mp hflt with ⟨l, hl, hxl⟩
  rcases List.mem_map.mp hl with ⟨link, hlink, rfl⟩
  exact fetch_entries_newline_free o link x hxl

/-! # Claims -/

/-! ## C4: the fetcher never raises and degrades to the empty sequence -/

/-- Claim C4: for every link reference — a `data:` payload whose base64
decode fails, a remote URL whose fetch throws a network exception, or a
remote URL answered with a non-success HTTP status — `fetchSubscriptionNodes`
returns (rather than raising) the empty sequence of entries.  Totality of
the Lean function is the "never raises" part; the three conjuncts are the
three failure shapes. -/
theorem C4_fetch_failure_yields_empty (o : Oracle) (url : String) :
    ("data:".data.isPrefixOf url.data = true →
      (∀ payload, (jsSplitChar ',' url)[1]? = some payload →
        atobOpt payload = none) →
      fetchSubscriptionNodes o url = [])
    ∧ ("data:".data.isPrefixOf url.data = false → o url = .netError →
        fetchSubscriptionNodes o url = [])
    ∧ (∀ body, "data:".data.isPrefixOf url.data = false →
        o url = .httpResp false body → fetchSubscriptionNodes o url = []) := by
  refine ⟨fun hpre hdec => ?_, fun hpre hnet => ?_, fun body hpre hresp => ?_⟩
  · unfold fetchSubscriptionNodes
    rw [hpre]
    simp only [if_true]
    match hidx : (jsSplitChar ',' url)[1]? with
    | some payload => simp only [hdec payload hidx]
    | none => rfl
  · unfold fetchSubscriptionNodes
    rw [hpre]
    simp only [Bool.false_eq_true, if_false, hnet]
  · unfold fetchSubscriptionNodes
    rw [hpre]
    simp only [Bool.false_eq_true, if_false, hresp]

/-- Witness for C4: a `data:` reference with an undecodable payload, a
URL whose fetch throws, and a URL answered with HTTP 500 all yield `[]`. -/
theorem C4_fetch_failure_yields_empty_witness :
    fetchSubscriptionNodes (fun _ => .netError) "data:;base64,!!!" = []
    ∧ fetchSubscriptionNodes (fun _ => .netError) "http://x" = []
    ∧ fetchSubscriptionNodes (fun _ => .httpResp false "oops") "http://x" = [] := by
  refine ⟨(C4_fetch_failure_yields_empty (fun _ => .netError) "data:;base64,!!!").1
      (by decide) ?_,
    (C4_fetch_failure_yields_empty (fun _ => .netError) "http://x").2.1
      (by decide) rfl,
    (C4_fetch_failure_yields_empty (fun _ => .httpResp false "oops") "http://x").2.2
      "oops" (by decide) rfl⟩
  intro payload h
  have hval : (jsSplitChar ',' "data:;base64,!!!")[1]? = some "!!!" := by decide
  rw [hval] at h
  obtain rfl := Option.some.inj h
  decide

/-! ## C5: unknown group versus stored-but-empty group -/

/-- Claim C5: requesting a group id absent from the store yields the
distinct not-found response (never an empty-but-successful aggregation),
while a stored group whose link list is empty yields the successful
encoded output `btoa("") = ""`. -/
theorem C5_not_found_vs_empty_group (o : Oracle) (store : GroupStore)
    (gid : String) (hgid : gid ≠ "") :
    (store gid = none → handleSubscription o store gid = .notFound)
    ∧ (∀ name, store gid = some ⟨name, some []⟩ →
        handleSubscription o store gid = .ok "")
    ∧ SubResponse.notFound ≠ .ok "" := by
  refine ⟨fun hnone => ?_, fun name hsome => ?_, by simp⟩
  · unfold handleSubscription
    rw [if_neg hgid, hnone]
  · unfold handleSubscription
    rw [if_neg hgid, hsome]
    rfl

/-- Witness for C5: a store with no groups answers 404; a store holding a
group with an empty link list answers 200 with the empty base64 body. -/
theorem C5_not_found_vs_empty_group_witness :
    handleSubscription (fun _ => .netError) (fun _ => none) "g1" = .notFound
    ∧ handleSubscription (fun _ => .netError)
        (fun _ => some ⟨some "mygroup", some []⟩) "g1" = .ok "" :=
  ⟨(C5_not_found_vs_empty_group (fun _ => .netError) (fun _ => none) "g1"
      (by decide)).1 rfl,
   (C5_not_found_vs_empty_group (fun _ => .netError)
      (fun _ => some ⟨some "mygroup", some []⟩) "g1" (by decide)).2.1
      (some "mygroup") rfl⟩

/-! ## C9: which part of a `data:` reference is decoded

The claim says the *entire* substring after the first comma is decoded.
The code computes `subUrl.split(',')[1]`, which is only the segment
between the first and the second comma; everything after a second comma
is silently ignored. -/

/-- Counterexample to C9 as stated: for
`data:text/plain;base64,QQ==,IQ==` the claim predicts that the whole
suffix `QQ==,IQ==` is base64-decoded — which fails (`,` is not in the
alphabet), so the claimed result is `[]` — yet the fetch returns `["A"]`,
the decoding of the segment `QQ==` between the two commas. -/
theorem C9_counterexample :
    fetchSubscriptionNodes (fun _ => .netError)
      "data:text/plain;base64,QQ==,IQ==" = ["A"]
    ∧ atobOpt "QQ==,IQ==" = none
    ∧ (["A"] : List String) ≠ [] := by
  refine ⟨by decide, by decide, by decide⟩

/-- Claim C9 (amended): for every `data:` reference, the fetch
base64-decodes the segment of the URL between the first comma and the
next comma or the end of the string (formally: element 1 of the split on
`,`), splits the decoded text on newlines, and yields the empty sequence
on decode failure or when no comma is present.  The three conjuncts
exhaust every `data:` reference: writing the reference as `data:` ++ `m`
with `m` comma-free (no comma — empty result), `data:` ++ `m` ++ `,` ++
`p` with `m, p` comma-free (one comma — `p` is decoded in full), or
`data:` ++ `m` ++ `,` ++ `p` ++ `,` ++ `r` with `m, p` comma-free and `r`
arbitrary (two or more commas — only `p` is decoded, `r` is ignored). -/
theorem C9_data_decodes_second_segment (o : Oracle) (m p r : String)
    (hm : ',' ∉ m.data) (hp : ',' ∉ p.data) :
    (fetchSubscriptionNodes o ("data:" ++ m ++ "," ++ p) =
      match atobOpt p with
      | some decoded => jsSplitChar '\n' decoded
      | none => [])
    ∧ (fetchSubscriptionNodes o ("data:" ++ m ++ "," ++ p ++ "," ++ r) =
      match atobOpt p with
      | some decoded => jsSplitChar '\n' decoded
      | none => [])
    ∧ fetchSubscriptionNodes o ("data:" ++ m) = [] := by
  have hnm : ',' ∉ "data:".data ++ m.data := by
    intro hmem
    rcases List.mem_append.mp hmem with h | h
    · exact absurd h (by decide)
    · exact hm h
  refine ⟨?_, ?_, ?_⟩
  · have hdata : ("data:" ++ m ++ "," ++ p).data =
        "data:".data ++ (m.data ++ ',' :: p.data) := by
      simp only [String.data_append]
      simp
    have hdata2 : ("data:" ++ m ++ "," ++ p).data =
        ("data:".data ++ m.data) ++ ',' :: p.data := by
      rw [hdata, ← List.append_assoc]
    have hpre : "data:".data.isPrefixOf ("data:" ++ m ++ "," ++ p).data = true := by
      rw [hdata, List.isPrefixOf_iff_prefix]
      exact List.prefix_append _ _
    have hsplit : splitOnCharList ',' ("data:" ++ m ++ "," ++ p).data =
        [("data:".data ++ m.data), p.data] := by
      rw [hdata2, splitOnCharList_append ',' _ _ hnm,
        splitOnCharList_no_sep ',' _ hp]
    unfold fetchSubscriptionNodes
    rw [hpre]
    simp only [if_true]
    have hidx : (jsSplitChar ',' ("data:" ++ m ++ "," ++ p))[1]? = some p := by
      unfold jsSplitChar
      rw [hsplit, List.map_cons, List.map_cons]
      simp
    rw [hidx]
  · have hdata : ("data:" ++ m ++ "," ++ p ++ "," ++ r).data =
        "data:".data ++ (m.data ++ ',' :: (p.data ++ ',' :: r.data)) := by
      simp only [String.data_append]
      simp
    have hdata2 : ("data:" ++ m ++ "," ++ p ++ "," ++ r).data =
        ("data:".data ++ m.data) ++ ',' :: (p.data ++ ',' :: r.data) := by
      rw [hdata, ← List.append_assoc]
    have hpre : "data:".data.isPrefixOf
        ("data:" ++ m ++ "," ++ p ++ "," ++ r).data = true := by
      rw [hdata, List.isPrefixOf_iff_prefix]
      exact List.prefix_append _ _
    have hsplit : splitOnCharList ',' ("data:" ++ m ++ "," ++ p ++ "," ++ r).data =
        ("data:".data ++ m.data) :: p.data :: splitOnCharList ',' r.data := by
      rw [hdata2, splitOnCharList_append ',' _ _ hnm,
        splitOnCharList_append ',' _ _ hp]
    unfold fetchSubscriptionNodes
    rw [hpre]
    simp only [if_true]
    have hidx : (jsSplitChar ',' ("data:" ++ m ++ "," ++ p ++ "," ++ r))[1]? =
        some p := by
      unfold jsSplitChar
      rw [hsplit, List.map_cons, List.map_cons]
      simp
    rw [hidx]
  · have hdata : ("data:" ++ m).data = "data:".data ++ m.data :=
      String.data_append _ _
    have hpre : "data:".data.isPrefixOf ("data:" ++ m).data = true := by
      rw [hdata, List.isPrefixOf_iff_prefix]
      exact List.prefix_append _ _
    have hsplit : splitOnCharList ',' ("data:" ++ m).data =
        [("data:".data ++ m.data)] := by
      rw [hdata, splitOnCharList_no_sep ',' _ hnm]
    unfold fetchSubscriptionNodes
    rw [hpre]
    simp only [if_true]
    have hidx : (jsSplitChar ',' ("data:" ++ m))[1]? = (none : Option String) := by
      unfold jsSplitChar
      rw [hsplit, List.map_cons]
      simp
    rw [hidx]

/-- Witness for C9 (amended): the canonical single-comma reference
decodes its whole payload `QQ==` to `A`; with a second comma and
trailing junk only the `QQ==` segment is decoded; without a comma the
result is empty. -/
theorem C9_data_decodes_second_segment_witness :
    (fetchSubscriptionNodes (fun _ => .netError)
      ("data:" ++ "text/plain;base64" ++ "," ++ "QQ==") =
      match atobOpt "QQ==" with
      | some decoded => jsSplitChar '\n' decoded
      | none => [])
    ∧ (fetchSubscriptionNodes (fun _ => .netError)
      ("data:" ++ "text/plain;base64" ++ "," ++ "QQ==" ++ "," ++ "IQ==") =
      match atobOpt "QQ==" with
      | some decoded => jsSplitChar '\n' decoded
      | none => [])
    ∧ fetchSubscriptionNodes (fun _ => .netError)
      ("data:" ++ "text/plain;base64") = [] :=
  C9_data_decodes_second_segment (fun _ => .netError) "text/plain;base64"
    "QQ==" "IQ==" (by decide) (by decide)

/-! ## C1: the aggregation output as dedup of the fetched entries

The claim describes the output as the base64 of the newline-join of the
deduplicated fetched entries.  The code additionally removes falsy
(empty-string) entries (`filter(Boolean)`) before deduplicating, and a
`data:` reference can contribute empty entries (its branch does not
filter blank lines), so on such inputs the output differs from the
claimed value. -/

/-- Counterexample to C1 as stated: one `data:` link decoding to
`"A\n\nB"` contributes the entries `["A", "", "B"]`; the claim predicts
the output `btoa("A\n\nB") = "QQoKQg=="` (the empty entry kept once),
but the handler answers `btoa("A\nB") = "QQpC"`. -/
theorem C1_counterexample :
    handleSubscription (fun _ => .netError)
      (fun g => if g = "g1" then
        some ⟨some "G", some ["data:text/plain;base64,QQoKQg=="]⟩ else none)
      "g1" = .ok "QQpC"
    ∧ btoaOpt (String.intercalate "\n" (jsSetDedup
        ((["data:text/plain;base64,QQoKQg=="].map
          (fetchSubscriptionNodes (fun _ => FetchResult.netError))).flatten)))
        = some "QQoKQg=="
    ∧ ("QQpC" : String) ≠ "QQoKQg==" := by
  refine ⟨by decide, by decide, by decide⟩

/-- Claim C1 (amended): for every link-reference sequence, the
aggregation output is the base64 encoding of the newline-join of the
fetched entries *after removing empty entries*, deduplicated by exact
string equality with first-occurrence-wins, insertion-order-preserving
set semantics: the deduplicated sequence has no duplicates, contains
exactly the distinct nonempty fetched entries, is a subsequence of the
filtered concatenation (so relative order is preserved), and satisfies
the first-occurrence recurrence of an insertion-ordered set. -/
theorem C1_output_is_dedup_of_fetched (o : Oracle) (store : GroupStore)
    (gid : String) (gd : GroupData) (b : String) (hgid : gid ≠ "")
    (hstore : store gid = some gd)
    (hb : btoaOpt (String.intercalate "\n" (jsSetDedup
      ((((gd.links.getD []).map (fetchSubscriptionNodes o)).flatten).filter
        (fun s => s ≠ "")))) = some b) :
    handleSubscription o store gid = .ok b
    ∧ atobOpt b = some (String.intercalate "\n" (jsSetDedup
        ((((gd.links.getD []).map (fetchSubscriptionNodes o)).flatten).filter
          (fun s => s ≠ ""))))
    ∧ (jsSetDedup
        ((((gd.links.getD []).map (fetchSubscriptionNodes o)).flatten).filter
          (fun s => s ≠ ""))).Nodup
    ∧ (∀ x, x ∈ jsSetDedup
        ((((gd.links.getD []).map (fetchSubscriptionNodes o)).flatten).filter
          (fun s => s ≠ "")) ↔
        x ∈ ((gd.links.getD []).map (fetchSubscriptionNodes o)).flatten ∧ x ≠ "")
    ∧ (jsSetDedup
        ((((gd.links.getD []).map (fetchSubscriptionNodes o)).flatten).filter
          (fun s => s ≠ ""))).Sublist
        ((((gd.links.getD []).map (fetchSubscriptionNodes o)).flatten).filter
          (fun s => s ≠ ""))
    ∧ (∀ x xs, jsSetDedup (x :: xs) =
        x :: jsSetDedup (xs.filter (fun y => y ≠ x))) := by
  refine ⟨?_, atob_btoa _ _ hb, nodup_jsSetDedupAux _ _, fun x => ?_,
    sublist_jsSetDedupAux _ _, jsSetDedup_cons⟩
  · unfold handleSubscription
    rw [if_neg hgid, hstore]
    simp only [hb]
  · unfold jsSetDedup
    rw [mem_jsSetDedupAux, List.mem_filter]
    simp

/-- Witness for C1 (amended): a group with one `data:` link decoding to
`"A\nB\nA"` produces the output `btoa("A\nB") = "QQpC"` — each distinct
entry once, in first-occurrence order. -/
theorem C1_output_is_dedup_of_fetched_witness :
    handleSubscription (fun _ => .netError)
      (fun g => if g = "g1" then
        some ⟨some "G", some ["data:text/plain;base64,QQpCCkE="]⟩ else none)
      "g1" = .ok "QQpC" :=
  (C1_output_is_dedup_of_fetched (fun _ => .netError)
    (fun g => if g = "g1" then
      some ⟨some "G", some ["data:text/plain;base64,QQpCCkE="]⟩ else none)
    "g1" ⟨some "G", some ["data:text/plain;base64,QQpCCkE="]⟩ "QQpC"
    (by decide) (by decide) (by decide)).1

/-! ## C2: blank lines in the aggregation output

The claim says no entry of the decoded output is empty *or
whitespace-only*.  Empty entries are indeed removed
(`filter(Boolean)`), but the `data:` branch of the fetcher does not
trim-filter its lines, so a whitespace-only entry from a `data:`
reference survives into the output. -/

/-- Counterexample to C2 as stated: a `data:` link whose payload decodes
to the single whitespace-only line `" "` produces the output
`btoa(" ") = "IA=="`, whose decoding is the whitespace-only entry `" "`. -/
theorem C2_counterexample :
    handleSubscription (fun _ => .netError)
      (fun g => if g = "g1" then
        some ⟨some "G", some ["data:text/plain;base64,IA=="]⟩ else none)
      "g1" = .ok "IA=="
    ∧ atobOpt "IA==" = some " "
    ∧ jsSplitChar '\n' " " = [" "]
    ∧ jsTrim " " = ""
    ∧ (" " : String) ≠ "" := by
  refine ⟨by decide, by decide, by decide, by decide, by decide⟩

/-- Claim C2 (amended): for every input, no entry of the decoded
aggregation output is the *empty* string — empty lines are discarded
(`filter(Boolean)`) before deduplication.  Formally: the successful
output body decodes to the newline-join of a list `u` of nonempty
entries, and unless `u` is empty (a group with no surviving entries),
splitting the decoded output on newlines recovers exactly `u` — so `u`
*is* the line decomposition of the decoded output and none of its lines
is empty.  (Whitespace-only but nonempty lines are discarded only for
remote sources; a `data:` reference can still contribute them, see the
counterexample.) -/
theorem C2_no_empty_entries (o : Oracle) (store : GroupStore)
    (gid b : String) (hok : handleSubscription o store gid = .ok b) :
    ∃ u : List String, btoaOpt (String.intercalate "\n" u) = some b
      ∧ atobOpt b = some (String.intercalate "\n" u)
      ∧ (∀ x ∈ u, x ≠ "")
      ∧ (u = [] ∨ jsSplitChar '\n' (String.intercalate "\n" u) = u) := by
  unfold handleSubscription at hok
  split at hok
  · exact absurd hok (by simp)
  · split at hok
    · exact absurd hok (by simp)
    · split at hok
      · rename_i body hbt
        rename GroupData => gd
        have hbody : body = b := by
          simpa using hok
        subst hbody
        refine ⟨_, hbt, atob_btoa _ _ hbt, fun x hx => ?_, ?_⟩
        · have hmem := (mem_jsSetDedupAux [] _ x).mp hx
          have := (List.mem_filter.mp hmem.1).2
          simpa using this
        · match hu : jsSetDedup
            ((((gd.links.getD []).map (fetchSubscriptionNodes o)).flatten).filter
              (fun s => s ≠ "")) with
          | [] => exact Or.inl rfl
          | a :: as =>
              refine Or.inr ?_
              have hnl := entries_newline_free o gd
              rw [hu] at hnl
              exact jsSplitChar_intercalate a as (hnl a (by simp))
                (fun x hx => hnl x (by simp [hx]))
      · exact absurd hok (by simp)

/-- Witness for C2 (amended): the group of the counterexample produces
the output `"IA=="`, and the amended theorem applies to it. -/
theorem C2_no_empty_entries_witness :
    ∃ u : List String, btoaOpt (String.intercalate "\n" u) = some "IA=="
      ∧ atobOpt "IA==" = some (String.intercalate "\n" u)
      ∧ (∀ x ∈ u, x ≠ "")
      ∧ (u = [] ∨ jsSplitChar '\n' (String.intercalate "\n" u) = u) :=
  C2_no_empty_entries (fun _ => .netError)
    (fun g => if g = "g1" then
      some ⟨some "G", some ["data:text/plain;base64,IA=="]⟩ else none)
    "g1" "IA==" (by decide)

/-! ## C3: plain-text body versus base64-encoded body

The fetcher first tries `atob` on the *whole* body.  `atob` is
forgiving: it strips ASCII whitespace before decoding, so a plain-text
body that happens to be valid base64 after whitespace removal (such as
`"X\nY"`, i.e. `"XY"`) is silently decoded instead of being split as
text.  The claimed equivalence therefore holds only when the plain body
does not itself decode as base64. -/

/-- Counterexample to C3 as stated: the plain body `"X\nY"` and its
encoding `btoa("X\nY") = "WApZ"` produce different entries — the plain
body is itself forgiving-base64 (whitespace-stripped `"XY"`, one byte
`0x5D`), so the first source contributes `["]"]` while the second
contributes `["X", "Y"]`. -/
theorem C3_counterexample :
    btoaOpt "X\nY" = some "WApZ"
    ∧ fetchSubscriptionNodes
        (fun u => if u = "http://plain" then .httpResp true "X\nY"
          else .httpResp true "WApZ") "http://plain" = ["]"]
    ∧ fetchSubscriptionNodes
        (fun u => if u = "http://plain" then .httpResp true "X\nY"
          else .httpResp true "WApZ") "http://enc" = ["X", "Y"]
    ∧ (["]"] : List String) ≠ ["X", "Y"] := by
  refine ⟨by decide, by decide, by decide, by decide⟩

/-- Claim C3 (amended): for every pair of remote sources where one
returns a body of plain-text lines *that does not itself decode as
forgiving base64* and the other returns the base64 encoding of that same
text, fetching each produces exactly the same sequence of contributed
entries. -/
theorem C3_plain_eq_base64 (o : Oracle) (u1 u2 body enc : String)
    (h1 : "data:".data.isPrefixOf u1.data = false)
    (h2 : "data:".data.isPrefixOf u2.data = false)
    (ho1 : o u1 = .httpResp true body)
    (ho2 : o u2 = .httpResp true enc)
    (henc : btoaOpt body = some enc)
    (hplain : atobOpt body = none) :
    fetchSubscriptionNodes o u1 = fetchSubscriptionNodes o u2 := by
  have hdec : atobOpt enc = some body := atob_btoa body enc henc
  unfold fetchSubscriptionNodes
  rw [h1, h2]
  simp only [Bool.false_eq_true, if_false, ho1, ho2, if_true, hdec, hplain]

/-- Witness for C3 (amended): body `"X|\nY|"` (not valid base64 — `|` is
outside the alphabet) and its encoding `"WHwKWXw="` contribute the same
entries. -/
theorem C3_plain_eq_base64_witness :
    fetchSubscriptionNodes
      (fun u => if u = "http://plain" then .httpResp true "X|\nY|"
        else .httpResp true "WHwKWXw=") "http://plain" =
    fetchSubscriptionNodes
      (fun u => if u = "http://plain" then .httpResp true "X|\nY|"
        else .httpResp true "WHwKWXw=") "http://enc" :=
  C3_plain_eq_base64
    (fun u => if u = "http://plain" then .httpResp true "X|\nY|"
      else .httpResp true "WHwKWXw=") "http://plain" "http://enc"
    "X|\nY|" "WHwKWXw=" (by decide) (by decide) (by decide) (by decide)
    (by decide) (by decide)

/-! ## C6: one failing link plus one returning `"X\nY"`

The failure indeed contributes nothing, but the successful body
`"X\nY"` is itself forgiving-base64 (see C3), so the output decodes to
`"]"`, not to `"X\nY"`. -/

/-- Counterexample to C6 as stated: with one link failing with a network
error and the other answered `"X\nY"`, the aggregation output is
`"XQ=="`, which base64-decodes to `"]"` — not to `"X\nY"` as claimed. -/
theorem C6_counterexample :
    handleSubscription
      (fun u => if u = "http://a" then .netError else .httpResp true "X\nY")
      (fun g => if g = "g1" then
        some ⟨some "G", some ["http://a", "http://b"]⟩ else none)
      "g1" = .ok "XQ=="
    ∧ atobOpt "XQ==" = some "]"
    ∧ atobOpt "XQ==" ≠ some "X\nY" := by
  refine ⟨by decide, by decide, by decide⟩

/-- Claim C6 (amended): for a group with one link failing with a network
error and one remote body, the failed fetch contributes nothing; for the
body `"X\nY"` of the original scenario the output decodes to `"]"` (the
body is forgiving-base64), while for a body that is *not* decodable as
base64, e.g. `"X|\nY|"`, the successful fetch's lines pass through
unchanged and the output decodes to exactly that body. -/
theorem C6_failed_link_contributes_nothing :
    (handleSubscription
      (fun u => if u = "http://a" then .netError else .httpResp true "X\nY")
      (fun g => if g = "g1" then
        some ⟨some "G", some ["http://a", "http://b"]⟩ else none)
      "g1" = .ok "XQ=="
    ∧ atobOpt "XQ==" = some "]")
    ∧ (handleSubscription
      (fun u => if u = "http://a" then .netError else .httpResp true "X|\nY|")
      (fun g => if g = "g1" then
        some ⟨some "G", some ["http://a", "http://b"]⟩ else none)
      "g1" = .ok "WHwKWXw="
    ∧ atobOpt "WHwKWXw=" = some "X|\nY|") := by
  refine ⟨⟨by decide, by decide⟩, ⟨by decide, by decide⟩⟩

/-! ## C7: the single-vmess import scenario -/

/-- Claim C7: importing a config whose outbounds are exactly one vmess
outbound with one server endpoint (address `"h"`, port `443`, user id
`"u1"`) yields exactly one share link; it starts with `vmess://`, and its
base64 payload decodes to the JSON serialization of a descriptor whose
`add` is `"h"`, `port` is `443` and `id` is `"u1"`. -/
theorem C7_vmess_import_scenario :
    parseXrayConfig (some ⟨some [⟨"vmess", none,
        some [⟨"h", 443, [⟨"u1", none, none, none⟩], none⟩], none⟩]⟩) =
      ["vmess://" ++ "eyJ2IjoiMiIsInBzIjoiaW1wb3J0ZWQtbm9kZSIsImFkZCI6ImgiLCJwb3J0Ijo0NDMsImlkIjoidTEiLCJuZXQiOiJ0Y3AiLCJ0eXBlIjoibm9uZSIsImhvc3QiOiIiLCJwYXRoIjoiIiwidGxzIjoiIn0="]
    ∧ btoaOpt (vmessJsonStr
        ⟨"2", "imported-node", "h", 443, "u1", none, "tcp", "none", "", "", ""⟩) =
      some "eyJ2IjoiMiIsInBzIjoiaW1wb3J0ZWQtbm9kZSIsImFkZCI6ImgiLCJwb3J0Ijo0NDMsImlkIjoidTEiLCJuZXQiOiJ0Y3AiLCJ0eXBlIjoibm9uZSIsImhvc3QiOiIiLCJwYXRoIjoiIiwidGxzIjoiIn0="
    ∧ atobOpt "eyJ2IjoiMiIsInBzIjoiaW1wb3J0ZWQtbm9kZSIsImFkZCI6ImgiLCJwb3J0Ijo0NDMsImlkIjoidTEiLCJuZXQiOiJ0Y3AiLCJ0eXBlIjoibm9uZSIsImhvc3QiOiIiLCJwYXRoIjoiIiwidGxzIjoiIn0=" =
      some (vmessJsonStr
        ⟨"2", "imported-node", "h", 443, "u1", none, "tcp", "none", "", "", ""⟩)
    ∧ (⟨"2", "imported-node", "h", 443, "u1", none, "tcp", "none", "", "", ""⟩ :
        VmessObj).add = "h"
    ∧ (⟨"2", "imported-node", "h", 443, "u1", none, "tcp", "none", "", "", ""⟩ :
        VmessObj).port = 443
    ∧ (⟨"2", "imported-node", "h", 443, "u1", none, "tcp", "none", "", "", ""⟩ :
        VmessObj).id = "u1" := by
  refine ⟨?_, ?_, ?_, rfl, rfl, rfl⟩
  · set_option maxRecDepth 8000 in decide
  · set_option maxRecDepth 8000 in decide
  · set_option maxRecDepth 8000 in decide

/-! ## C8: the vless link format

The code builds the query with `new URLSearchParams({..., path:
encodeURIComponent(path), ...}).toString()`.  `URLSearchParams`
percent-encodes its values again when serializing, so the path arrives
in the query URL-encoded *twice*, not once as the claim states. -/

/-- Counterexample to C8 as stated: for a vless outbound with
`wsSettings.path = "/ws"`, the single URL encoding of the path is
`"%2Fws"`, but the generated link carries `path=%252Fws` (the `%` of the
first encoding escaped again by the query serializer), so the link
differs from the claimed single-encoded form. -/
theorem C8_counterexample :
    parseXrayConfig (some ⟨some [⟨"vless", none,
        some [⟨"h", 443, [⟨"u1", none, none, none⟩], none⟩],
        some ⟨some "ws", none, some ⟨some "/ws", none⟩, none⟩⟩]⟩) =
      ["vless://u1@h:443?type=ws&security=none&path=%252Fws&host=&flow=&encryption=none#imported-node"]
    ∧ encodeURIComponent "/ws" = "%2Fws"
    ∧ ("vless://u1@h:443?type=ws&security=none&path=%252Fws&host=&flow=&encryption=none#imported-node" : String) ≠
      "vless://u1@h:443?type=ws&security=none&path=%2Fws&host=&flow=&encryption=none#imported-node" := by
  refine ⟨by decide, by decide, by decide⟩

/-- Placeholder user for `headD`; never reached when `users` is
nonempty. -/
def defaultXUser : XUser := ⟨"", none, none, none⟩

theorem mapMOpt_eq_map (f : α → Option β) (g : α → β) (l : List α)
    (h : ∀ x ∈ l, f x = some (g x)) : mapMOpt f l = some (l.map g) := by
  induction l with
  | nil => rfl
  | cons x xs ih =>
      simp only [mapMOpt, h x (by simp),
        ih (fun y hy => h y (by simp [hy])), List.map_cons]

theorem importServerVless_eq (ob : Outbound) (remark : String)
    (s : XServer) (hu : s.users ≠ []) :
    importServerVless ob remark s = some ("vless://" ++
      (s.users.headD defaultXUser).id ++ "@" ++ s.address ++ ":" ++
      toString s.port ++ "?" ++
      urlSearchParamsToString
        [("type", jsOrStr (ssNetwork ob) "tcp"),
         ("security", jsOrStr (ssSecurity ob) "none"),
         ("path", encodeURIComponent (jsOrStr (ssWsPath ob) "")),
         ("host", jsOrStr (ssWsHost ob) ""),
         ("flow", jsOrStr (s.users.headD defaultXUser).flow ""),
         ("encryption", jsOrStr (s.users.headD defaultXUser).encryption "none")] ++
      "#" ++ encodeURIComponent (jsOrStr s.remark remark)) := by
  match husers : s.users with
  | [] => exact absurd husers hu
  | u :: rest =>
      unfold importServerVless
      rw [husers]
      rfl

/-- Claim C8 (amended): for every vless outbound with at least one server
endpoint (each carrying at least one user), the generated links have the
form `vless://<user-id>@<address>:<port>?<query>#<url-encoded display
name>`, where the query is the `URLSearchParams` serialization of the
fields in order `type, security, path, host, flow, encryption`, `security`
and `encryption` default to `"none"` when absent, and the query's `path`
field is the URL encoding applied *twice* (once by
`encodeURIComponent`, once more by the query serializer) of the
stream-settings path. -/
theorem C8_vless_link_form (ob : Outbound) (servers : List XServer)
    (hproto : ob.protocol = "vless") (hv : ob.vnext = some servers)
    (hu : ∀ s ∈ servers, s.users ≠ []) :
    importOutbound ob = some (servers.map fun s => "vless://" ++
      (s.users.headD defaultXUser).id ++ "@" ++ s.address ++ ":" ++
      toString s.port ++ "?" ++
      urlSearchParamsToString
        [("type", jsOrStr (ssNetwork ob) "tcp"),
         ("security", jsOrStr (ssSecurity ob) "none"),
         ("path", encodeURIComponent (jsOrStr (ssWsPath ob) "")),
         ("host", jsOrStr (ssWsHost ob) ""),
         ("flow", jsOrStr (s.users.headD defaultXUser).flow ""),
         ("encryption", jsOrStr (s.users.headD defaultXUser).encryption "none")] ++
      "#" ++ encodeURIComponent
        (jsOrStr s.remark (jsOrStr ob.remark "imported-node"))) := by
  unfold importOutbound
  rw [if_neg (fun hc => by rw [hproto] at hc; exact absurd hc (by decide)),
    if_pos hproto, hv]
  exact mapMOpt_eq_map _ _ servers
    (fun s hs => importServerVless_eq ob _ s (hu s hs))

/-- Witness for C8 (amended): the outbound of the counterexample. -/
theorem C8_vless_link_form_witness :
    importOutbound ⟨"vless", none,
        some [⟨"h", 443, [⟨"u1", none, none, none⟩], none⟩],
        some ⟨some "ws", none, some ⟨some "/ws", none⟩, none⟩⟩ =
      some ([(⟨"h", 443, [⟨"u1", none, none, none⟩], none⟩ : XServer)].map
        fun s => "vless://" ++ (s.users.headD defaultXUser).id ++ "@" ++
          s.address ++ ":" ++ toString s.port ++ "?" ++
          urlSearchParamsToString
            [("type", jsOrStr (ssNetwork ⟨"vless", none,
                some [⟨"h", 443, [⟨"u1", none, none, none⟩], none⟩],
                some ⟨some "ws", none, some ⟨some "/ws", none⟩, none⟩⟩) "tcp"),
             ("security", jsOrStr (ssSecurity ⟨"vless", none,
                some [⟨"h", 443, [⟨"u1", none, none, none⟩], none⟩],
                some ⟨some "ws", none, some ⟨some "/ws", none⟩, none⟩⟩) "none"),
             ("path", encodeURIComponent (jsOrStr (ssWsPath ⟨"vless", none,
                some [⟨"h", 443, [⟨"u1", none, none, none⟩], none⟩],
                some ⟨some "ws", none, some ⟨some "/ws", none⟩, none⟩⟩) "")),
             ("host", jsOrStr (ssWsHost ⟨"vless", none,
                some [⟨"h", 443, [⟨"u1", none, none, none⟩], none⟩],
                some ⟨some "ws", none, some ⟨some "/ws", none⟩, none⟩⟩) ""),
             ("flow", jsOrStr (s.users.headD defaultXUser).flow ""),
             ("encryption", jsOrStr (s.users.headD defaultXUser).encryption "none")] ++
          "#" ++ encodeURIComponent (jsOrStr s.remark
            (jsOrStr (none : Option String) "imported-node"))) :=
  C8_vless_link_form ⟨"vless", none,
      some [⟨"h", 443, [⟨"u1", none, none, none⟩], none⟩],
      some ⟨some "ws", none, some ⟨some "/ws", none⟩, none⟩⟩
    [⟨"h", 443, [⟨"u1", none, none, none⟩], none⟩] rfl rfl (by decide)

/-! ## C10: `getConfig` never reveals the stored password -/

theorem lookupKey_setKey (k v : String) (cfg : KVConfig) :
    lookupKey k (setKey k v cfg) = some v := by
  induction cfg with
  | nil => simp [setKey, lookupKey]
  | cons kv rest ih =>
      by_cases h : kv.1 = k
      · simp [setKey, h, lookupKey]
      · simp [setKey, h, lookupKey, ih]

theorem deletePassword_setKey (p : String) (cfg : KVConfig) :
    deletePassword (setKey "password" p cfg) = deletePassword cfg := by
  induction cfg with
  | nil => simp [setKey, deletePassword]
  | cons kv rest ih =>
      by_cases h : kv.1 = "password"
      · simp [setKey, deletePassword, List.filter_cons, h, ih]
      · simp [setKey, deletePassword, List.filter_cons, h] at ih ⊢
        exact ih

theorem lookupKey_deletePassword (cfg : KVConfig) :
    lookupKey "password" (deletePassword cfg) = none := by
  induction cfg with
  | nil => rfl
  | cons kv rest ih =>
      by_cases h : kv.1 = "password"
      · simpa [deletePassword, List.filter_cons, h] using ih
      · simpa [deletePassword, List.filter_cons, h, lookupKey] using ih

/-- Claim C10: for every stored `CONFIG` value, a successful `getConfig`
response omits the password field: two stores differing only in the
(set, nonempty) password produce identical response data and
`isConfigured` flag, and the response data carries no `password` key. -/
theorem C10_getConfig_hides_password (cfg : KVConfig) (p1 p2 : String)
    (h1 : p1 ≠ "") (h2 : p2 ≠ "") :
    adminGetConfig (some (setKey "password" p1 cfg)) (some p1) =
      adminGetConfig (some (setKey "password" p2 cfg)) (some p2)
    ∧ ∀ d b, adminGetConfig (some (setKey "password" p1 cfg)) (some p1) =
        .getConfigOk d b → lookupKey "password" d = none ∧ b = true := by
  have heval : ∀ p : String, p ≠ "" →
      adminGetConfig (some (setKey "password" p cfg)) (some p) =
        .getConfigOk (deletePassword cfg) true := by
    intro p hp
    unfold adminGetConfig
    simp only [Option.getD_some, Option.isSome_some]
    rw [lookupKey_setKey]
    rw [if_neg (by simp [hp])]
    simp [deletePassword_setKey]
  refine ⟨by rw [heval p1 h1, heval p2 h2], fun d b h => ?_⟩
  rw [heval p1 h1] at h
  have hd : deletePassword cfg = d ∧ (true : Bool) = b := by
    simpa using h
  exact ⟨hd.1 ▸ lookupKey_deletePassword cfg, hd.2.symm⟩

/-- Witness for C10: two configs differing only in the password value
produce the same `getConfig` response. -/
theorem C10_getConfig_hides_password_witness :
    adminGetConfig
      (some (setKey "password" "pw1" [("subPath", "s"), ("adminPath", "a")]))
      (some "pw1") =
    adminGetConfig
      (some (setKey "password" "pw2" [("subPath", "s"), ("adminPath", "a")]))
      (some "pw2") :=
  (C10_getConfig_hides_password [("subPath", "s"), ("adminPath", "a")]
    "pw1" "pw2" (by decide) (by decide)).1

end CFSub
